import Mathlib

/-!
Shallow embedding of `testgen.py` (the single source file of this repository).

The script draws pseudo-random values from Python's `random` module and writes
three text files.  We model the pseudo-random generator abstractly as a stream
`g : Nat → Nat` of raw draws together with a position counter that each draw
advances by one; `random.getrandbits(32)` at position `p` yields `g p % 2^32`
and `random.randint(0, 63)` yields `g p % 64`.  File writes are modelled as an
explicit event trace interpreted over a functional file system.
-/

set_option maxRecDepth 100000

namespace Testgen

/-- The abstract stream of raw pseudo-random draws. -/
abbrev RandStream := Nat → Nat

/-- Bound of the 32-bit draws: `2 ^ 32`. -/
def U32 : Nat := 2 ^ 32

/-- Model of `random.getrandbits(32)` at stream position `p`:
the drawn value together with the advanced position. -/
def getrandbits32 (g : RandStream) (p : Nat) : Nat × Nat :=
  (g p % U32, p + 1)

/-- Model of `random.randint(0, 63)` at stream position `p`:
a value in `[0, 63]` together with the advanced position. -/
def randint63 (g : RandStream) (p : Nat) : Nat × Nat :=
  (g p % 64, p + 1)

/-- A Python list comprehension `[expr for _ in range(n)]` where `expr`
performs stateful draws: `step` maps the current position to the produced
element and the next position; the result is the produced list and the final
position. -/
def genList {α : Type} (step : Nat → α × Nat) : Nat → Nat → List α × Nat
  | 0, p => ([], p)
  | n + 1, p =>
    let r := genList step n (step p).2
    ((step p).1 :: r.1, r.2)

/-- Line 4: `random_flow = [random.getrandbits(32) for _ in range(64)]`,
starting from stream position 0. -/
def randomFlowA (g : RandStream) : List Nat × Nat :=
  genList (fun p => getrandbits32 g p) 64 0

/-- Line 6: `random_numbers = [random_flow[random.randint(0,63)] for _ in range(2048)]`.
Python list indexing is fallible, so each element is modelled with `List.get?`. -/
def randomNumbersO (g : RandStream) : List (Option Nat) × Nat :=
  genList (fun p => ((randomFlowA g).1.get? (randint63 g p).1, (randint63 g p).2))
    2048 (randomFlowA g).2

/-- The values actually written to `head_info.txt` (each indexing succeeds,
as proved below, so the `getD 0` default is never taken). -/
def headVals (g : RandStream) : List Nat :=
  (randomNumbersO g).1.map (fun o => o.getD 0)

/-- Line 14: `random_flow = [random.getrandbits(32) for _ in range(2048)]`. -/
def randomFlowB (g : RandStream) : List Nat × Nat :=
  genList (fun p => getrandbits32 g p) 2048 (randomNumbersO g).2

/-- The values written to `buff_addr.txt`. -/
def buffAddrVals (g : RandStream) : List Nat :=
  (randomFlowB g).1

/-- Line 21: `random_flow = [random.getrandbits(32)%32 for _ in range(2048)]`. -/
def randomFlowC (g : RandStream) : List Nat × Nat :=
  genList (fun p => ((getrandbits32 g p).1 % 32, (getrandbits32 g p).2))
    2048 (randomFlowB g).2

/-- The values written to `buff_gapn.txt`. -/
def buffGapnVals (g : RandStream) : List Nat :=
  (randomFlowC g).1

/-- The character for one hex digit, as produced by Python's `%x` formatting:
`0`-`9` then lowercase `a`-`f`. -/
def hexChar (n : Nat) : Char :=
  if n < 10 then Char.ofNat (48 + n) else Char.ofNat (87 + n)

/-- Fuel-driven digit extraction: repeatedly divide by 16, emitting digits most
significant first.  The fuel is only a structural-recursion bound; `n + 1` units
always suffice, as proved below. -/
def hexDigitsF : Nat → Nat → List Char
  | 0, _ => []
  | fuel + 1, n =>
    if n < 16 then [hexChar n]
    else hexDigitsF fuel (n / 16) ++ [hexChar (n % 16)]

/-- Minimal lowercase hexadecimal digit list of a natural number,
most significant digit first (Python's `"%x" % n`). -/
def hexDigits (n : Nat) : List Char :=
  hexDigitsF (n + 1) n

/-- Python's `f"{number:08x}"`: the minimal lowercase hex digits of `number`,
left-padded with `'0'` to a minimum width of 8. -/
def format08x (n : Nat) : String :=
  String.mk (List.replicate (8 - (hexDigits n).length) '0' ++ hexDigits n)

/-- One written line, `f"{number:08x}\n"`. -/
def renderLine (v : Nat) : String :=
  format08x v ++ "\n"

/-- The content accumulated by one write loop
(`for number in vals: file.write(f"{number:08x}\n")`). -/
def fileContentOf (vals : List Nat) : String :=
  vals.foldl (fun acc v => acc ++ renderLine v) ""

/-- Observable side effects of the script, in program order. -/
inductive Ev : Type where
  | eopen : String → Ev
  | ewrite : String → String → Ev
  | eclose : String → Ev
  | eprint : String → Ev
deriving DecidableEq, Repr

/-- One `with open(name, 'w') as file: for number in vals: file.write(...)`
block: open, the sequence of writes, close. -/
def withBlock (name : String) (vals : List Nat) : List Ev :=
  Ev.eopen name :: ((vals.map fun v => Ev.ewrite name (renderLine v)) ++ [Ev.eclose name])

/-- The message printed by the final line of the script. -/
def finalMsg : String :=
  "随机数已生成并以16进制格式写入到random_numbers_hex.txt文件中。"

/-- The full event trace of one run of the script on stream `g`:
three sequential with-open blocks followed by the final print. -/
def scriptTrace (g : RandStream) : List Ev :=
  withBlock "head_info.txt" (headVals g)
    ++ withBlock "buff_addr.txt" (buffAddrVals g)
    ++ withBlock "buff_gapn.txt" (buffGapnVals g)
    ++ [Ev.eprint finalMsg]

/-- A functional file system: maps a file name to its content, when the file
exists. -/
def FS : Type := String → Option String

/-- Effect of one event on the file system: opening with mode `'w'` truncates
the file to empty, a write appends to the open file's content, closing and
printing leave the file system unchanged. -/
def applyEv (e : Ev) (fs : FS) : FS :=
  match e with
  | Ev.eopen name => fun n => if n = name then some "" else fs n
  | Ev.ewrite name data => fun n => if n = name then some ((fs name).getD "" ++ data) else fs n
  | Ev.eclose _ => fs
  | Ev.eprint _ => fs

/-- Run a trace over a file system. -/
def runTrace (tr : List Ev) (fs : FS) : FS :=
  tr.foldl (fun a e => applyEv e a) fs

/-- Run a trace over a file system where each event may fail (oracle `ok`):
the first failing event aborts the run, propagating as an error, exactly as an
uncaught Python exception would. -/
def runTraceE (ok : Ev → Bool) : List Ev → FS → Except Ev FS
  | [], fs => Except.ok fs
  | e :: es, fs => if ok e then runTraceE ok es (applyEv e fs) else Except.error e

/-- The three file contents produced by one run, in the order written. -/
def outputs (g : RandStream) : String × String × String :=
  (fileContentOf (headVals g), fileContentOf (buffAddrVals g), fileContentOf (buffGapnVals g))

/-- File names an event opens (used to enumerate created files). -/
def evOpened (e : Ev) : Option String :=
  match e with
  | Ev.eopen name => some name
  | _ => none

/-- File names an event touches at all (open, write or close). -/
def evFile (e : Ev) : Option String :=
  match e with
  | Ev.eopen name => some name
  | Ev.ewrite name _ => some name
  | Ev.eclose name => some name
  | Ev.eprint _ => none

/-- Whether a character is a lowercase hexadecimal digit
(`'0'`-`'9'` or `'a'`-`'f'`). -/
def isHexLower (c : Char) : Bool :=
  (48 ≤ c.toNat && c.toNat ≤ 57) || (97 ≤ c.toNat && c.toNat ≤ 102)

/-! ### Basic properties of `genList` -/

theorem genList_length {α : Type} (step : Nat → α × Nat) :
    ∀ n p : Nat, ((genList step n p).1).length = n := by
  intro n
  induction n with
  | zero => intro p; rfl
  | succ m ih => intro p; simp [genList, ih]

theorem genList_snd {α : Type} (step : Nat → α × Nat)
    (hstep : ∀ q, (step q).2 = q + 1) :
    ∀ n p : Nat, (genList step n p).2 = p + n := by
  intro n
  induction n with
  | zero => intro p; rfl
  | succ m ih => intro p; simp [genList, ih, hstep]; omega

theorem genList_get? {α : Type} (step : Nat → α × Nat)
    (hstep : ∀ q, (step q).2 = q + 1) :
    ∀ n p i : Nat, i < n → ((genList step n p).1).get? i = some ((step (p + i)).1) := by
  intro n
  induction n with
  | zero => intro p i h; omega
  | succ m ih =>
    intro p i h
    cases i with
    | zero => simp [genList]
    | succ j =>
      show ((genList step m (step p).2).1).get? j = some ((step (p + (j + 1))).1)
      rw [hstep]
      have hidx : p + (j + 1) = p + 1 + j := by omega
      rw [hidx]
      exact ih (p + 1) j (by omega)

theorem genList_mem {α : Type} (step : Nat → α × Nat) :
    ∀ n p : Nat, ∀ v ∈ (genList step n p).1, ∃ q, v = (step q).1 := by
  intro n
  induction n with
  | zero => intro p v hv; simp [genList] at hv
  | succ m ih =>
    intro p v hv
    simp only [genList, List.mem_cons] at hv
    rcases hv with h | h
    · exact ⟨p, h⟩
    · exact ih _ v h

theorem genList_congr {α : Type} (s t : Nat → α × Nat)
    (hs : ∀ q, (s q).2 = q + 1) (ht : ∀ q, (t q).2 = q + 1) :
    ∀ n p : Nat, (∀ q, p ≤ q → q < p + n → (s q).1 = (t q).1) →
      genList s n p = genList t n p := by
  intro n
  induction n with
  | zero => intro p _; rfl
  | succ m ih =>
    intro p h
    have h1 : (s p).1 = (t p).1 := h p (Nat.le_refl p) (by omega)
    have h2 : genList s m (p + 1) = genList t m (p + 1) :=
      ih (p + 1) (fun q hq1 hq2 => h q (by omega) (by omega))
    simp only [genList, hs, ht, h1, h2]

/-! ### Stream positions and list lengths of the four generation phases -/

theorem randomFlowA_snd (g : RandStream) : (randomFlowA g).2 = 64 :=
  genList_snd _ (fun _ => rfl) 64 0

theorem randomNumbersO_snd (g : RandStream) : (randomNumbersO g).2 = 2112 := by
  have h := genList_snd
    (fun p => ((randomFlowA g).1.get? (randint63 g p).1, (randint63 g p).2))
    (fun _ => rfl) 2048 (randomFlowA g).2
  rw [randomNumbersO, h, randomFlowA_snd]

theorem randomFlowB_snd (g : RandStream) : (randomFlowB g).2 = 4160 := by
  have h := genList_snd (fun p => getrandbits32 g p) (fun _ => rfl) 2048 (randomNumbersO g).2
  rw [randomFlowB, h, randomNumbersO_snd]

theorem randomFlowC_snd (g : RandStream) : (randomFlowC g).2 = 6208 := by
  have h := genList_snd (fun p => ((getrandbits32 g p).1 % 32, (getrandbits32 g p).2))
    (fun _ => rfl) 2048 (randomFlowB g).2
  rw [randomFlowC, h, randomFlowB_snd]

theorem randomFlowA_length (g : RandStream) : (randomFlowA g).1.length = 64 :=
  genList_length _ 64 0

theorem randomNumbersO_length (g : RandStream) : (randomNumbersO g).1.length = 2048 :=
  genList_length _ 2048 _

theorem headVals_length (g : RandStream) : (headVals g).length = 2048 := by
  rw [headVals, List.length_map, randomNumbersO_length]

theorem buffAddrVals_length (g : RandStream) : (buffAddrVals g).length = 2048 :=
  genList_length _ 2048 _

theorem buffGapnVals_length (g : RandStream) : (buffGapnVals g).length = 2048 :=
  genList_length _ 2048 _

/-! ### Properties of the hexadecimal rendering -/

theorem hexChar_hexLower : ∀ m : Nat, m < 16 → isHexLower (hexChar m) = true := by decide

theorem hexDigitsF_hexLower :
    ∀ fuel n : Nat, n < fuel → ∀ c ∈ hexDigitsF fuel n, isHexLower c = true := by
  intro fuel
  induction fuel with
  | zero => intro n hn; omega
  | succ m ih =>
    intro n hn c hc
    rw [hexDigitsF] at hc
    by_cases h : n < 16
    · rw [if_pos h] at hc
      simp only [List.mem_singleton] at hc
      subst hc
      exact hexChar_hexLower n h
    · rw [if_neg h] at hc
      simp only [List.mem_append, List.mem_singleton] at hc
      have hdiv : n / 16 < n := Nat.div_lt_self (by omega) (by omega)
      rcases hc with h1 | h1
      · exact ih (n / 16) (by omega) c h1
      · subst h1
        exact hexChar_hexLower _ (Nat.mod_lt _ (by omega))

theorem hexDigits_hexLower : ∀ n : Nat, ∀ c ∈ hexDigits n, isHexLower c = true := by
  intro n
  exact hexDigitsF_hexLower (n + 1) n (by omega)

theorem hexDigitsF_length_le :
    ∀ fuel n k : Nat, n < fuel → 0 < k → n < 16 ^ k → (hexDigitsF fuel n).length ≤ k := by
  intro fuel
  induction fuel with
  | zero => intro n k hn; omega
  | succ m ih =>
    intro n k hn hk hnk
    rw [hexDigitsF]
    by_cases h : n < 16
    · rw [if_pos h]
      simp only [List.length_singleton]
      omega
    · rw [if_neg h]
      rw [List.length_append, List.length_singleton]
      obtain ⟨j, rfl⟩ : ∃ j, k = j + 1 := ⟨k - 1, by omega⟩
      have hj : 0 < j := by
        rcases Nat.eq_zero_or_pos j with h0 | h0
        · subst h0; simp at hnk; omega
        · exact h0
      have hdiv : n / 16 < 16 ^ j := by
        rw [Nat.div_lt_iff_lt_mul (by norm_num)]
        calc n < 16 ^ (j + 1) := hnk
          _ = 16 ^ j * 16 := by ring
      have hfuel : n / 16 < m := by
        have := Nat.div_lt_self (show 0 < n by omega) (show 1 < 16 by omega)
        omega
      have := ih (n / 16) j hfuel hj hdiv
      omega

theorem hexDigits_length_le (k n : Nat) (hk : 0 < k) (hn : n < 16 ^ k) :
    (hexDigits n).length ≤ k :=
  hexDigitsF_length_le (n + 1) n k (by omega) hk hn

theorem format08x_data (n : Nat) :
    (format08x n).data = List.replicate (8 - (hexDigits n).length) '0' ++ hexDigits n := rfl

theorem format08x_length (n : Nat) (h : n < U32) : (format08x n).length = 8 := by
  have h8 : (hexDigits n).length ≤ 8 := by
    apply hexDigits_length_le 8 n (by norm_num)
    have h16 : (16 : Nat) ^ 8 = 2 ^ 32 := by norm_num
    rw [h16]
    exact h
  rw [format08x, String.length_mk, List.length_append, List.length_replicate]
  omega

theorem format08x_hexLower (n : Nat) : ∀ c ∈ (format08x n).data, isHexLower c = true := by
  intro c hc
  rw [format08x_data] at hc
  rcases List.mem_append.mp hc with h | h
  · rw [List.eq_of_mem_replicate h]
    decide
  · exact hexDigits_hexLower n c h

theorem newline_not_hexLower : isHexLower '\n' = false := by decide

theorem format08x_no_newline (n : Nat) : '\n' ∉ (format08x n).data := by
  intro hmem
  have := format08x_hexLower n '\n' hmem
  rw [newline_not_hexLower] at this
  exact Bool.false_ne_true this

/-! ### Ranges and provenance of the generated values -/

theorem U32_pos : 0 < U32 := by norm_num [U32]

theorem randomFlowA_lt (g : RandStream) : ∀ v ∈ (randomFlowA g).1, v < U32 := by
  intro v hv
  obtain ⟨q, rfl⟩ := genList_mem _ _ _ v hv
  exact Nat.mod_lt _ U32_pos

theorem buffAddrVals_lt (g : RandStream) : ∀ v ∈ buffAddrVals g, v < U32 := by
  intro v hv
  obtain ⟨q, rfl⟩ := genList_mem _ _ _ v hv
  exact Nat.mod_lt _ U32_pos

theorem buffGapnVals_lt (g : RandStream) : ∀ v ∈ buffGapnVals g, v < 32 := by
  intro v hv
  obtain ⟨q, rfl⟩ := genList_mem _ _ _ v hv
  exact Nat.mod_lt _ (by norm_num)

theorem randomNumbersO_mem (g : RandStream) :
    ∀ o ∈ (randomNumbersO g).1, ∃ v, o = some v ∧ v ∈ (randomFlowA g).1 := by
  intro o ho
  obtain ⟨q, rfl⟩ := genList_mem _ _ _ o ho
  have hidx : (randint63 g q).1 < (randomFlowA g).1.length := by
    rw [randomFlowA_length]
    exact Nat.mod_lt _ (by norm_num)
  refine ⟨(randomFlowA g).1.get ⟨(randint63 g q).1, hidx⟩, ?_, List.get_mem _ _ _⟩
  exact List.get?_eq_get hidx

theorem randomNumbersO_isSome (g : RandStream) :
    ∀ o ∈ (randomNumbersO g).1, o.isSome = true := by
  intro o ho
  obtain ⟨v, rfl, -⟩ := randomNumbersO_mem g o ho
  rfl

theorem headVals_mem_flow (g : RandStream) : ∀ v ∈ headVals g, v ∈ (randomFlowA g).1 := by
  intro v hv
  rw [headVals] at hv
  obtain ⟨o, ho, rfl⟩ := List.mem_map.mp hv
  obtain ⟨w, rfl, hw⟩ := randomNumbersO_mem g o ho
  simpa using hw

theorem headVals_lt (g : RandStream) : ∀ v ∈ headVals g, v < U32 := by
  intro v hv
  exact randomFlowA_lt g v (headVals_mem_flow g v hv)

theorem headVals_get? (g : RandStream) (i : Nat) (hi : i < 2048) :
    (headVals g).get? i
      = some (((randomFlowA g).1.get? ((randint63 g (64 + i)).1)).getD 0) := by
  have h := genList_get?
    (fun p => ((randomFlowA g).1.get? (randint63 g p).1, (randint63 g p).2))
    (fun _ => rfl) 2048 (randomFlowA g).2 i hi
  rw [randomFlowA_snd] at h
  rw [headVals, List.get?_map, randomNumbersO, randomFlowA_snd, h]
  rfl

theorem buffGapnVals_get? (g : RandStream) (i : Nat) (hi : i < 2048) :
    (buffGapnVals g).get? i = some (g (4160 + i) % U32 % 32) := by
  have h := genList_get?
    (fun p => ((getrandbits32 g p).1 % 32, (getrandbits32 g p).2))
    (fun _ => rfl) 2048 (randomFlowB g).2 i hi
  rw [randomFlowB_snd] at h
  rw [buffGapnVals, randomFlowC, randomFlowB_snd]
  exact h

/-! ### The content of one write loop -/

theorem foldl_append_acc (vals : List Nat) :
    ∀ acc : String, vals.foldl (fun a v => a ++ renderLine v) acc = acc ++ fileContentOf vals := by
  induction vals with
  | nil =>
    intro acc
    rw [fileContentOf, List.foldl_nil, List.foldl_nil, String.append_empty]
  | cons v vs ih =>
    intro acc
    have hr : fileContentOf (v :: vs) = renderLine v ++ fileContentOf vs := by
      rw [fileContentOf, List.foldl_cons, String.empty_append]
      exact ih (renderLine v)
    rw [List.foldl_cons, ih, hr, String.append_assoc]

theorem fileContentOf_cons (v : Nat) (vs : List Nat) :
    fileContentOf (v :: vs) = renderLine v ++ fileContentOf vs := by
  rw [fileContentOf, List.foldl_cons, foldl_append_acc, String.empty_append]

theorem renderLine_data (v : Nat) : (renderLine v).data = (format08x v).data ++ ['\n'] := by
  rw [renderLine, String.data_append]

theorem fileContentOf_data (vals : List Nat) :
    (fileContentOf vals).data = (vals.map (fun v => (format08x v).data ++ ['\n'])).flatten := by
  induction vals with
  | nil => rfl
  | cons v vs ih =>
    rw [fileContentOf_cons, String.data_append, ih, List.map_cons, List.flatten_cons,
      renderLine_data]

theorem fileContentOf_count (vals : List Nat) :
    ((fileContentOf vals).data).count '\n' = vals.length := by
  induction vals with
  | nil => rfl
  | cons v vs ih =>
    rw [fileContentOf_cons, String.data_append, List.count_append, ih, renderLine_data,
      List.count_append]
    have h0 : ((format08x v).data).count '\n' = 0 :=
      List.count_eq_zero.mpr (format08x_no_newline v)
    rw [h0, List.length_cons, List.count_singleton_self]
    omega

/-! ### Running event traces over the file system -/

theorem runTrace_append (t1 t2 : List Ev) (fs : FS) :
    runTrace (t1 ++ t2) fs = runTrace t2 (runTrace t1 fs) := by
  rw [runTrace, runTrace, runTrace, List.foldl_append]

theorem runTrace_cons (e : Ev) (es : List Ev) (fs : FS) :
    runTrace (e :: es) fs = runTrace es (applyEv e fs) := by
  rw [runTrace, runTrace, List.foldl_cons]

theorem runTrace_writes (name : String) (vals : List Nat) :
    ∀ (fs : FS) (s : String), fs name = some s →
      runTrace (vals.map fun v => Ev.ewrite name (renderLine v)) fs
        = fun n => if n = name then some (s ++ fileContentOf vals) else fs n := by
  induction vals with
  | nil =>
    intro fs s hs
    funext n
    rw [List.map_nil, runTrace, List.foldl_nil, fileContentOf, List.foldl_nil,
      String.append_empty]
    by_cases hn : n = name
    · rw [if_pos hn, hn, hs]
    · rw [if_neg hn]
  | cons v vs ih =>
    intro fs s hs
    rw [List.map_cons, runTrace_cons]
    have h1 : applyEv (Ev.ewrite name (renderLine v)) fs name = some (s ++ renderLine v) := by
      simp [applyEv, hs]
    rw [ih _ _ h1]
    funext n
    by_cases hn : n = name
    · subst hn
      simp [fileContentOf_cons, String.append_assoc]
    · simp [hn, applyEv]

theorem runTrace_withBlock (name : String) (vals : List Nat) (fs : FS) :
    runTrace (withBlock name vals) fs
      = fun n => if n = name then some (fileContentOf vals) else fs n := by
  rw [withBlock, runTrace_cons]
  have h0 : applyEv (Ev.eopen name) fs name = some "" := by
    simp [applyEv]
  rw [runTrace_append, runTrace_writes name vals _ _ h0]
  funext n
  by_cases hn : n = name
  · subst hn
    simp [runTrace, applyEv]
  · simp [runTrace, applyEv, hn]

theorem runTrace_scriptTrace (g : RandStream) (fs : FS) :
    runTrace (scriptTrace g) fs = fun n =>
      if n = "buff_gapn.txt" then some (fileContentOf (buffGapnVals g))
      else if n = "buff_addr.txt" then some (fileContentOf (buffAddrVals g))
      else if n = "head_info.txt" then some (fileContentOf (headVals g))
      else fs n := by
  rw [scriptTrace, runTrace_append, runTrace_append, runTrace_append,
    runTrace_withBlock, runTrace_withBlock, runTrace_withBlock]
  funext n
  simp only [runTrace, List.foldl_cons, List.foldl_nil, applyEv]

theorem runTraceE_firstFail (ok : Ev → Bool) :
    ∀ (pre : List Ev) (e : Ev) (post : List Ev) (fs : FS),
      (∀ e' ∈ pre, ok e' = true) → ok e = false →
      runTraceE ok (pre ++ e :: post) fs = Except.error e := by
  intro pre
  induction pre with
  | nil =>
    intro e post fs _ hfail
    rw [List.nil_append, runTraceE, if_neg (by rw [hfail]; exact Bool.false_ne_true)]
  | cons e0 es ih =>
    intro e post fs hpre hfail
    rw [List.cons_append, runTraceE,
      if_pos (hpre e0 (List.mem_cons_self e0 es))]
    exact ih e post _ (fun e' he' => hpre e' (List.mem_cons_of_mem e0 he')) hfail

/-! ### File names occurring in the trace -/

theorem filterMap_const_none {α β : Type} (l : List α) :
    l.filterMap (fun _ => (none : Option β)) = [] := by
  induction l with
  | nil => rfl
  | cons x xs ih => simp [List.filterMap_cons, ih]

theorem filterMap_const_some {α β : Type} (b : β) (l : List α) :
    l.filterMap (fun _ => some b) = l.map (fun _ => b) := by
  induction l with
  | nil => rfl
  | cons x xs ih => simp [List.filterMap_cons, ih]

theorem withBlock_filterMap_evOpened (name : String) (vals : List Nat) :
    (withBlock name vals).filterMap evOpened = [name] := by
  rw [withBlock, List.filterMap_cons]
  simp only [List.filterMap_append, List.filterMap_map]
  have hc : (evOpened ∘ fun v => Ev.ewrite name (renderLine v))
      = fun _ : Nat => (none : Option String) := rfl
  rw [hc, filterMap_const_none]
  rfl

theorem withBlock_filterMap_evFile (name : String) (vals : List Nat) :
    (withBlock name vals).filterMap evFile
      = name :: (vals.map (fun _ => name) ++ [name]) := by
  rw [withBlock, List.filterMap_cons]
  simp only [List.filterMap_append, List.filterMap_map]
  have hc : (evFile ∘ fun v => Ev.ewrite name (renderLine v))
      = fun _ : Nat => some name := rfl
  rw [hc, filterMap_const_some]
  rfl

/-! ### Determinism: the outputs are a function of the consumed random draws -/

theorem randomFlowA_congr (g1 g2 : RandStream) (h : ∀ i, i < 64 → g1 i = g2 i) :
    randomFlowA g1 = randomFlowA g2 := by
  rw [randomFlowA, randomFlowA]
  apply genList_congr _ _ (fun _ => rfl) (fun _ => rfl)
  intro q hq1 hq2
  show g1 q % U32 = g2 q % U32
  rw [h q (by omega)]

theorem randomNumbersO_congr (g1 g2 : RandStream) (h : ∀ i, i < 2112 → g1 i = g2 i) :
    randomNumbersO g1 = randomNumbersO g2 := by
  have hA : randomFlowA g1 = randomFlowA g2 :=
    randomFlowA_congr g1 g2 (fun i hi => h i (by omega))
  rw [randomNumbersO, randomNumbersO, hA, randomFlowA_snd]
  apply genList_congr _ _ (fun _ => rfl) (fun _ => rfl)
  intro q hq1 hq2
  show (randomFlowA g2).1.get? (g1 q % 64) = (randomFlowA g2).1.get? (g2 q % 64)
  rw [h q (by omega)]

theorem randomFlowB_congr (g1 g2 : RandStream) (h : ∀ i, i < 4160 → g1 i = g2 i) :
    randomFlowB g1 = randomFlowB g2 := by
  have hN : randomNumbersO g1 = randomNumbersO g2 :=
    randomNumbersO_congr g1 g2 (fun i hi => h i (by omega))
  rw [randomFlowB, randomFlowB, hN, randomNumbersO_snd]
  apply genList_congr _ _ (fun _ => rfl) (fun _ => rfl)
  intro q hq1 hq2
  show g1 q % U32 = g2 q % U32
  rw [h q (by omega)]

theorem randomFlowC_congr (g1 g2 : RandStream) (h : ∀ i, i < 6208 → g1 i = g2 i) :
    randomFlowC g1 = randomFlowC g2 := by
  have hB : randomFlowB g1 = randomFlowB g2 :=
    randomFlowB_congr g1 g2 (fun i hi => h i (by omega))
  rw [randomFlowC, randomFlowC, hB, randomFlowB_snd]
  apply genList_congr _ _ (fun _ => rfl) (fun _ => rfl)
  intro q hq1 hq2
  show g1 q % U32 % 32 = g2 q % U32 % 32
  rw [h q (by omega)]

theorem outputs_congr (g1 g2 : RandStream) (h : ∀ i, i < 6208 → g1 i = g2 i) :
    outputs g1 = outputs g2 := by
  have hN : randomNumbersO g1 = randomNumbersO g2 :=
    randomNumbersO_congr g1 g2 (fun i hi => h i (by omega))
  have hB : randomFlowB g1 = randomFlowB g2 :=
    randomFlowB_congr g1 g2 (fun i hi => h i (by omega))
  have hC : randomFlowC g1 = randomFlowC g2 := randomFlowC_congr g1 g2 h
  rw [outputs, outputs, headVals, headVals, hN, buffAddrVals, buffAddrVals, hB,
    buffGapnVals, buffGapnVals, hC]

/-! ### Two different draw streams that produce different outputs -/

theorem randomFlowA_get? (g : RandStream) (i : Nat) (hi : i < 64) :
    (randomFlowA g).1.get? i = some (g i % U32) := by
  have hget := genList_get? (fun p => getrandbits32 g p) (fun _ => rfl) 64 0 i hi
  rw [Nat.zero_add] at hget
  rw [randomFlowA]
  exact hget

theorem headVals_zero_head : (headVals (fun _ => 0)).get? 0 = some 0 := by
  rw [headVals_get? (fun _ => 0) 0 (by norm_num)]
  have h1 : ((randint63 (fun _ => 0) (64 + 0)).1) = 0 := rfl
  rw [h1, randomFlowA_get? (fun _ => 0) 0 (by norm_num)]
  rfl

theorem headVals_one_head : (headVals (fun _ => 1)).get? 0 = some 1 := by
  rw [headVals_get? (fun _ => 1) 0 (by norm_num)]
  have h1 : ((randint63 (fun _ => 1) (64 + 0)).1) = 1 := rfl
  rw [h1, randomFlowA_get? (fun _ => 1) 1 (by norm_num)]
  rfl

theorem outputs_vary : outputs (fun _ => 0) ≠ outputs (fun _ => 1) := by
  intro hEq
  rw [outputs, outputs, Prod.mk.injEq, Prod.mk.injEq] at hEq
  have hd := congrArg String.data hEq.1
  rw [fileContentOf_data, fileContentOf_data] at hd
  obtain ⟨ta, hta⟩ : ∃ t, headVals (fun _ => 0) = 0 :: t := by
    have hA := headVals_zero_head
    cases hv : headVals (fun _ => 0) with
    | nil => rw [hv] at hA; simp at hA
    | cons x t =>
      rw [hv] at hA
      simp only [List.get?_cons_zero, Option.some.injEq] at hA
      exact ⟨t, by rw [hA]⟩
  obtain ⟨tb, htb⟩ : ∃ t, headVals (fun _ => 1) = 1 :: t := by
    have hB := headVals_one_head
    cases hv : headVals (fun _ => 1) with
    | nil => rw [hv] at hB; simp at hB
    | cons x t =>
      rw [hv] at hB
      simp only [List.get?_cons_zero, Option.some.injEq] at hB
      exact ⟨t, by rw [hB]⟩
  rw [hta, htb, List.map_cons, List.map_cons, List.flatten_cons, List.flatten_cons] at hd
  have hlen : ((format08x 0).data ++ ['\n']).length = ((format08x 1).data ++ ['\n']).length := by
    decide
  have hfirst := (List.append_inj hd hlen).1
  have hne : ((format08x 0).data ++ ['\n']) ≠ ((format08x 1).data ++ ['\n']) := by decide
  exact hne hfirst

/-! ### The claims -/

/-- C1: every run writes exactly 2048 values to each of the three files, and
each file's content is precisely the concatenation of the rendered values, one
per line, each line newline-terminated, with no header and no trailing
metadata ('\n' occurs exactly 2048 times in each file). -/
theorem testgen_C1 (g : RandStream) :
    (headVals g).length = 2048 ∧ (buffAddrVals g).length = 2048 ∧
    (buffGapnVals g).length = 2048 ∧
    (fileContentOf (headVals g)).data
      = ((headVals g).map (fun v => (format08x v).data ++ ['\n'])).flatten ∧
    (fileContentOf (buffAddrVals g)).data
      = ((buffAddrVals g).map (fun v => (format08x v).data ++ ['\n'])).flatten ∧
    (fileContentOf (buffGapnVals g)).data
      = ((buffGapnVals g).map (fun v => (format08x v).data ++ ['\n'])).flatten ∧
    ((fileContentOf (headVals g)).data).count '\n' = 2048 ∧
    ((fileContentOf (buffAddrVals g)).data).count '\n' = 2048 ∧
    ((fileContentOf (buffGapnVals g)).data).count '\n' = 2048 :=
  ⟨headVals_length g, buffAddrVals_length g, buffGapnVals_length g,
    fileContentOf_data _, fileContentOf_data _, fileContentOf_data _,
    by rw [fileContentOf_count, headVals_length],
    by rw [fileContentOf_count, buffAddrVals_length],
    by rw [fileContentOf_count, buffGapnVals_length]⟩

/-- C2: every generated value is below `2 ^ 32`, and its rendering is exactly 8
characters, all of them lowercase hexadecimal digits. -/
theorem testgen_C2 (g : RandStream) :
    (headVals g ++ buffAddrVals g ++ buffGapnVals g).all
      (fun v => decide (v < U32) && ((format08x v).length == 8)
        && (format08x v).data.all isHexLower) = true := by
  rw [List.all_eq_true]
  intro v hv
  have hlt : v < U32 := by
    simp only [List.mem_append] at hv
    rcases hv with (hv | hv) | hv
    · exact headVals_lt g v hv
    · exact buffAddrVals_lt g v hv
    · exact lt_trans (buffGapnVals_lt g v hv) (by norm_num [U32])
  rw [Bool.and_eq_true, Bool.and_eq_true]
  refine ⟨⟨decide_eq_true hlt, ?_⟩, ?_⟩
  · simp [format08x_length v hlt]
  · rw [List.all_eq_true]
    intro c hc
    exact format08x_hexLower v c hc

/-- C3: every value written to `buff_gapn.txt` lies in `[0, 32)`, and the
`i`-th value is exactly the `i`-th 32-bit draw of that phase reduced modulo
32 before rendering. -/
theorem testgen_C3 (g : RandStream) :
    (buffGapnVals g).all (fun v => decide (v < 32)) = true ∧
    (∀ i, i < 2048 → (buffGapnVals g).get? i = some (g (4160 + i) % U32 % 32)) := by
  constructor
  · rw [List.all_eq_true]
    intro v hv
    exact decide_eq_true (buffGapnVals_lt g v hv)
  · intro i hi
    exact buffGapnVals_get? g i hi

/-- C3 witness: the theorem applied to the all-zero stream at index 0. -/
theorem testgen_C3_witness : (buffGapnVals (fun _ => 0)).get? 0 = some 0 := by
  have h := (testgen_C3 (fun _ => 0)).2 0 (by norm_num)
  simpa using h

/-- C4: the pool `random_flow` has 64 elements, every value of `head_info.txt`
belongs to the pool (hence at most 64 distinct values appear), and each of the
2048 entries is obtained by indexing the pool at a random index. -/
theorem testgen_C4 (g : RandStream) :
    (randomFlowA g).1.length = 64 ∧
    (∀ v ∈ headVals g, v ∈ (randomFlowA g).1) ∧
    (headVals g).toFinset.card ≤ 64 ∧
    (∀ i, i < 2048 → (headVals g).get? i
      = some (((randomFlowA g).1.get? ((randint63 g (64 + i)).1)).getD 0)) := by
  refine ⟨randomFlowA_length g, headVals_mem_flow g, ?_, headVals_get? g⟩
  have hsub : (headVals g).toFinset ⊆ (randomFlowA g).1.toFinset := by
    intro v hv
    rw [List.mem_toFinset] at hv ⊢
    exact headVals_mem_flow g v hv
  calc (headVals g).toFinset.card
      ≤ (randomFlowA g).1.toFinset.card := Finset.card_le_card hsub
    _ ≤ (randomFlowA g).1.length := (randomFlowA g).1.toFinset_card_le
    _ = 64 := randomFlowA_length g

/-- C4 witness: the theorem applied to the all-zero stream, giving pool
membership of the first entry and its indexing equation. -/
theorem testgen_C4_witness :
    (0 : Nat) ∈ (randomFlowA (fun _ => 0)).1 ∧
    (headVals (fun _ => 0)).get? 0 = some 0 := by
  refine ⟨(testgen_C4 (fun _ => 0)).2.1 0 (List.get?_mem headVals_zero_head), ?_⟩
  have h4 := (testgen_C4 (fun _ => 0)).2.2.2 0 (by norm_num)
  rw [h4]
  have h1 : ((randint63 (fun _ => 0) (64 + 0)).1) = 0 := rfl
  rw [h1, randomFlowA_get? (fun _ => 0) 0 (by norm_num)]
  rfl

/-- C5: values of `head_info.txt` and `buff_addr.txt` are unsigned integers
below `2 ^ 32`, and values of `buff_gapn.txt` are below 32. -/
theorem testgen_C5 (g : RandStream) :
    (headVals g).all (fun v => decide (v < U32)) = true ∧
    (buffAddrVals g).all (fun v => decide (v < U32)) = true ∧
    (buffGapnVals g).all (fun v => decide (v < 32)) = true := by
  refine ⟨?_, ?_, ?_⟩
  · rw [List.all_eq_true]
    intro v hv
    exact decide_eq_true (headVals_lt g v hv)
  · rw [List.all_eq_true]
    intro v hv
    exact decide_eq_true (buffAddrVals_lt g v hv)
  · rw [List.all_eq_true]
    intro v hv
    exact decide_eq_true (buffGapnVals_lt g v hv)

/-- C6: the outputs are a deterministic function of the consumed random draws
(streams agreeing on the 6208 consumed positions produce identical file
contents), and without a fixed seed the outputs may vary between runs. -/
theorem testgen_C6 :
    (∀ g1 g2 : RandStream, (∀ i, i < 6208 → g1 i = g2 i) → outputs g1 = outputs g2) ∧
    (∃ g1 g2 : RandStream, outputs g1 ≠ outputs g2) :=
  ⟨outputs_congr, ⟨fun _ => 0, fun _ => 1, outputs_vary⟩⟩

/-- C6 witness: the determinism part applied to two identical streams. -/
theorem testgen_C6_witness : outputs (fun _ => 0) = outputs (fun _ => 0) :=
  testgen_C6.1 (fun _ => 0) (fun _ => 0) (fun _ _ => rfl)

/-- C7: the trace is the three with-open blocks in order followed by the final
print; after the whole run each file holds exactly the content its own write
loop produced (later writes leave earlier files unchanged), and no other file
is touched. -/
theorem testgen_C7 (g : RandStream) (fs : FS) :
    runTrace (scriptTrace g) fs "head_info.txt" = some (fileContentOf (headVals g)) ∧
    runTrace (scriptTrace g) fs "buff_addr.txt" = some (fileContentOf (buffAddrVals g)) ∧
    runTrace (scriptTrace g) fs "buff_gapn.txt" = some (fileContentOf (buffGapnVals g)) ∧
    runTrace (withBlock "head_info.txt" (headVals g)) fs "head_info.txt"
      = runTrace (scriptTrace g) fs "head_info.txt" ∧
    runTrace (withBlock "head_info.txt" (headVals g)
        ++ withBlock "buff_addr.txt" (buffAddrVals g)) fs "buff_addr.txt"
      = runTrace (scriptTrace g) fs "buff_addr.txt" ∧
    scriptTrace g = withBlock "head_info.txt" (headVals g)
      ++ withBlock "buff_addr.txt" (buffAddrVals g)
      ++ withBlock "buff_gapn.txt" (buffGapnVals g) ++ [Ev.eprint finalMsg] ∧
    (∀ n : String, n ≠ "head_info.txt" → n ≠ "buff_addr.txt" → n ≠ "buff_gapn.txt" →
      runTrace (scriptTrace g) fs n = fs n) := by
  have hrun := runTrace_scriptTrace g fs
  refine ⟨?_, ?_, ?_, ?_, ?_, rfl, ?_⟩
  · rw [hrun]
    simp
  · rw [hrun]
    simp
  · rw [hrun]
    simp
  · rw [runTrace_withBlock, hrun]
    simp
  · rw [runTrace_append, runTrace_withBlock, runTrace_withBlock, hrun]
    simp
  · intro n h1 h2 h3
    rw [hrun]
    simp [h1, h2, h3]

/-- C7 witness: the frame part of the theorem at a fourth file name. -/
theorem testgen_C7_witness :
    runTrace (scriptTrace (fun _ => 0)) (fun _ => none) "other.txt" = none :=
  (testgen_C7 (fun _ => 0) (fun _ => none)).2.2.2.2.2.2 "other.txt"
    (by decide) (by decide) (by decide)

/-- C8: if some event of the run fails (the oracle `ok` returns false on it),
execution stops at the first failing event and the failure propagates as an
uncaught error; nothing catches, retries or recovers. -/
theorem testgen_C8 (g : RandStream) (ok : Ev → Bool) (fs : FS) (pre : List Ev) (e : Ev)
    (post : List Ev) (hsplit : scriptTrace g = pre ++ e :: post)
    (hpre : ∀ e' ∈ pre, ok e' = true) (hfail : ok e = false) :
    runTraceE ok (scriptTrace g) fs = Except.error e := by
  rw [hsplit]
  exact runTraceE_firstFail ok pre e post fs hpre hfail

/-- C8 witness: a run whose very first `open` fails aborts with that error. -/
theorem testgen_C8_witness :
    runTraceE (fun e => !(e == Ev.eopen "head_info.txt"))
      (scriptTrace (fun _ => 0)) (fun _ => none)
      = Except.error (Ev.eopen "head_info.txt") := by
  apply testgen_C8 (fun _ => 0) _ _ [] (Ev.eopen "head_info.txt")
    (((headVals (fun _ => 0)).map fun v => Ev.ewrite "head_info.txt" (renderLine v))
      ++ [Ev.eclose "head_info.txt"]
      ++ withBlock "buff_addr.txt" (buffAddrVals (fun _ => 0))
      ++ withBlock "buff_gapn.txt" (buffGapnVals (fun _ => 0))
      ++ [Ev.eprint finalMsg])
  · simp [scriptTrace, withBlock]
  · intro e' he'
    simp at he'
  · simp

/-- C9: every resampling index drawn by `random.randint(0, 63)` is at most 63,
the pool has exactly 64 elements, and thus every pool indexing succeeds. -/
theorem testgen_C9 (g : RandStream) :
    (∀ q, (randint63 g q).1 ≤ 63) ∧
    (randomFlowA g).1.length = 64 ∧
    (randomNumbersO g).1.all Option.isSome = true := by
  refine ⟨?_, randomFlowA_length g, ?_⟩
  · intro q
    show g q % 64 ≤ 63
    omega
  · rw [List.all_eq_true]
    intro o ho
    exact randomNumbersO_isSome g o ho

/-- Any file name touched inside one with-open block is that block's file. -/
theorem withBlock_evFile_mem (name : String) (vals : List Nat) (n : String)
    (h : n ∈ (withBlock name vals).filterMap evFile) : n = name := by
  rw [withBlock_filterMap_evFile] at h
  simp only [List.mem_cons, List.mem_append, List.mem_map, List.mem_singleton,
    List.not_mem_nil, or_false] at h
  rcases h with h | ⟨a, -, h⟩ | h
  · exact h
  · exact h.symm
  · exact h

/-- C10: the run opens exactly the three files `head_info.txt`,
`buff_addr.txt`, `buff_gapn.txt`; no event touches a file named
`random_numbers_hex.txt`; yet the final printed message mentions exactly that
name. -/
theorem testgen_C10 (g : RandStream) :
    (scriptTrace g).filterMap evOpened
      = ["head_info.txt", "buff_addr.txt", "buff_gapn.txt"] ∧
    ((scriptTrace g).filterMap evFile).all
      (fun n => n == "head_info.txt" || n == "buff_addr.txt" || n == "buff_gapn.txt")
      = true ∧
    "random_numbers_hex.txt" ∉ (scriptTrace g).filterMap evFile ∧
    Ev.eprint finalMsg ∈ scriptTrace g ∧
    finalMsg = "随机数已生成并以16进制格式写入到" ++ "random_numbers_hex.txt" ++ "文件中。" := by
  have hopened : (scriptTrace g).filterMap evOpened
      = ["head_info.txt", "buff_addr.txt", "buff_gapn.txt"] := by
    rw [scriptTrace, List.filterMap_append, List.filterMap_append, List.filterMap_append,
      withBlock_filterMap_evOpened, withBlock_filterMap_evOpened, withBlock_filterMap_evOpened]
    rfl
  have hmem3 : ∀ n ∈ (scriptTrace g).filterMap evFile,
      n = "head_info.txt" ∨ n = "buff_addr.txt" ∨ n = "buff_gapn.txt" := by
    intro n hn
    rw [scriptTrace, List.filterMap_append, List.filterMap_append,
      List.filterMap_append] at hn
    simp only [List.mem_append] at hn
    rcases hn with ((h | h) | h) | h
    · exact Or.inl (withBlock_evFile_mem _ _ _ h)
    · exact Or.inr (Or.inl (withBlock_evFile_mem _ _ _ h))
    · exact Or.inr (Or.inr (withBlock_evFile_mem _ _ _ h))
    · simp [List.filterMap_cons, evFile] at h
  have hall : ((scriptTrace g).filterMap evFile).all
      (fun n => n == "head_info.txt" || n == "buff_addr.txt" || n == "buff_gapn.txt")
      = true := by
    rw [List.all_eq_true]
    intro n hn
    rcases hmem3 n hn with h | h | h <;> subst h <;> simp
  refine ⟨hopened, hall, ?_, ?_, rfl⟩
  · intro hmem
    have h := List.all_eq_true.mp hall _ hmem
    exact absurd h (by decide)
  · rw [scriptTrace]
    simp

/-- C1 witness: the line count of `head_info.txt` at the all-zero stream. -/
theorem testgen_C1_witness : (headVals (fun _ => 0)).length = 2048 :=
  (testgen_C1 (fun _ => 0)).1

/-- C2 witness: the theorem at the all-zero stream. -/
theorem testgen_C2_witness :
    (headVals (fun _ => 0) ++ buffAddrVals (fun _ => 0) ++ buffGapnVals (fun _ => 0)).all
      (fun v => decide (v < U32) && ((format08x v).length == 8)
        && (format08x v).data.all isHexLower) = true :=
  testgen_C2 (fun _ => 0)

/-- C5 witness: the `head_info.txt` bound at the all-zero stream. -/
theorem testgen_C5_witness :
    (headVals (fun _ => 0)).all (fun v => decide (v < U32)) = true :=
  (testgen_C5 (fun _ => 0)).1

/-- C9 witness: the first drawn index at the all-zero stream is at most 63. -/
theorem testgen_C9_witness : (randint63 (fun _ => 0) 0).1 ≤ 63 :=
  (testgen_C9 (fun _ => 0)).1 0

/-- C10 witness: the final print event occurs in the all-zero-stream trace. -/
theorem testgen_C10_witness : Ev.eprint finalMsg ∈ scriptTrace (fun _ => 0) :=
  (testgen_C10 (fun _ => 0)).2.2.2.1

end Testgen
